import Mathlib

/-!
Verification of the ztbd cross-database benchmark pipeline.

This file gives a shallow embedding, in Lean 4, of the decision logic of the
ztbd repository and proves properties of it:

* `src/ztbd/tests/base_test.py` — the `QueryResult` dataclass, the
  `BaseTest.execute_with_timing` wrapper and the row normalizer
  `BaseTest._normalize_row`;
* `src/ztbd/tests/test_runner.py` — `TestRunner.run_all_tests`,
  `TestRunner._calculate_statistics`, `TestRunner.compare_results`,
  `TestRunner._compare_data_samples` and the `main` entry point;
* `src/ztbd/normalizer.py` — dimension extraction, surrogate-key lookups,
  association construction and `simulate_price_history`;
* `main.py` — the importer's zero-initialized-databases early return.

Modelling conventions, used throughout:

* Python numbers (`int`, `float`, `Decimal`) are modelled as exact values
  (`Int` / `Rat`); IEEE-754 rounding error of `float` is not modelled, and
  `float(n)` on an `int` is modelled as exact.
* Python's `round(x, 2)` is modelled as round-half-to-even at two decimal
  places over `Rat`.
* Python dicts are modelled as association lists in insertion order, with
  assignment updating the first matching key in place and appending fresh
  keys at the end, exactly as CPython dicts behave.
* A Python `set` accumulated by repeated `add`/`update` calls is modelled as
  a duplicate-free list in insertion order; since CPython set iteration
  order is unspecified, theorems about code that iterates a set quantify
  over all permutations of that list.
* `random.uniform` / `random.random` / `random.choice` draws are supplied
  as an explicit stream of draw records, one per loop iteration.
* Exceptions are modelled with `Except String`.
-/

namespace Ztbd

/-! ## Python string primitives

Python's default `str.strip` removes the six ASCII whitespace characters;
`str.lower` on the ASCII range maps `A`–`Z` to `a`–`z` (the repository's
field names are ASCII); string comparison is lexicographic on code points.
-/

/-- The whitespace characters removed by Python's default `str.strip`. -/
def isPySpace (c : Char) : Bool :=
  c = ' ' || c = '\t' || c = '\n' || c = '\r' || c = '\x0b' || c = '\x0c'

/-- ASCII lower-casing of one character, as `str.lower` acts on `A`–`Z`. -/
def charLower (c : Char) : Char :=
  if 65 ≤ c.toNat ∧ c.toNat ≤ 90 then Char.ofNat (c.toNat + 32) else c

/-- `str.lower`, restricted to its ASCII action. -/
def pyLower (s : String) : String :=
  ⟨s.data.map charLower⟩

/-- `str.strip()` on a character list: drop whitespace from both ends. -/
def pyStripList (l : List Char) : List Char :=
  (((l.dropWhile isPySpace).reverse.dropWhile isPySpace)).reverse

/-- Python's `str.strip()` (no argument: default whitespace). -/
def pyStrip (s : String) : String :=
  ⟨pyStripList s.data⟩

/-- The code-point sequence of a string; Python compares strings by these. -/
def codes (s : String) : List Nat :=
  s.data.map Char.toNat

/-- Lexicographic strict comparison of code-point sequences, i.e. Python's
`<` on strings. -/
def codesLt : List Nat → List Nat → Bool
  | [], [] => false
  | [], _ :: _ => true
  | _ :: _, [] => false
  | a :: as, b :: bs =>
    if a < b then true else if b < a then false else codesLt as bs

/-- Python's `s < t` on strings. -/
def pyStrLt (s t : String) : Prop :=
  codesLt (codes s) (codes t) = true

/-- Python's `s <= t` on strings (total order: not `t < s`). -/
def pyStrLe (s t : String) : Prop :=
  ¬ pyStrLt t s

instance : DecidableRel pyStrLt := fun _ _ => by
  unfold pyStrLt; infer_instance

instance : DecidableRel pyStrLe := fun _ _ => by
  unfold pyStrLe; infer_instance

/-! ## Python values

`PyVal` covers the value kinds that the repository's rows carry: `None`,
`bool`, `int`, `float`, `Decimal`, `datetime`, `str`, plus an opaque
constructor for anything else (which `_normalize_row` passes through).
-/

/-- A `datetime.datetime` value (year at most 9999, as in CPython). -/
structure PyDateTime where
  year : Nat
  month : Nat
  day : Nat
  hour : Nat
  minute : Nat
  second : Nat
  microsecond : Nat
deriving DecidableEq, Repr

instance : Inhabited PyDateTime := ⟨⟨1, 1, 1, 0, 0, 0, 0⟩⟩

/-- One decimal digit character: `digitChar n` is the digit of `n % 10`. -/
def digitChar (n : Nat) : Char :=
  match n % 10 with
  | 0 => '0' | 1 => '1' | 2 => '2' | 3 => '3' | 4 => '4'
  | 5 => '5' | 6 => '6' | 7 => '7' | 8 => '8' | _ => '9'

/-- Fixed-width two-digit decimal rendering (`%02d` for values below 100). -/
def pad2 (n : Nat) : List Char :=
  [digitChar (n / 10), digitChar n]

/-- Fixed-width four-digit decimal rendering (`%04d` for values below 10000). -/
def pad4 (n : Nat) : List Char :=
  [digitChar (n / 1000), digitChar (n / 100), digitChar (n / 10), digitChar n]

/-- Fixed-width six-digit decimal rendering (`%06d` for values below 10⁶). -/
def pad6 (n : Nat) : List Char :=
  [digitChar (n / 100000), digitChar (n / 10000), digitChar (n / 1000),
   digitChar (n / 100), digitChar (n / 10), digitChar n]

/-- The characters of `datetime.isoformat()`:
`YYYY-MM-DDTHH:MM:SS` followed by `.ffffff` when microseconds are nonzero. -/
def isoformatChars (d : PyDateTime) : List Char :=
  pad4 d.year ++ '-' :: pad2 d.month ++ '-' :: pad2 d.day ++
    'T' :: pad2 d.hour ++ ':' :: pad2 d.minute ++ ':' :: pad2 d.second ++
    (if d.microsecond = 0 then [] else '.' :: pad6 d.microsecond)

/-- `datetime.isoformat()`. -/
def isoformat (d : PyDateTime) : String :=
  ⟨isoformatChars d⟩

/-- A Python value as it appears in a result row.  A float is either an
actual number (`vfloat`, the exact-rational model) or a NaN object
(`vfnan`): NaN needs its own constructor because it compares unequal to
everything — itself included — and `round` produces a fresh NaN object on
every call; the `id` field is an object-identity tag distinguishing those
fresh objects. -/
inductive PyVal where
  | vnone
  | vbool (b : Bool)
  | vint (n : Int)
  | vfloat (q : Rat)
  | vfnan (id : Nat)
  | vdec (q : Rat)
  | vdatetime (d : PyDateTime)
  | vstr (s : String)
  | vother (tag : Nat)
deriving DecidableEq, Repr

/-- `isinstance(v, bool)`. -/
def isinstBool : PyVal → Bool
  | .vbool _ => true
  | _ => false

/-- `isinstance(v, int)`. In Python `bool` is a subclass of `int`, so
booleans satisfy this check. -/
def isinstInt : PyVal → Bool
  | .vint _ => true
  | .vbool _ => true
  | _ => false

/-- `isinstance(v, float)` — NaN is a float. -/
def isinstFloat : PyVal → Bool
  | .vfloat _ => true
  | .vfnan _ => true
  | _ => false

/-- `isinstance(v, Decimal)`. -/
def isinstDec : PyVal → Bool
  | .vdec _ => true
  | _ => false

/-- `isinstance(v, datetime)`. -/
def isinstDatetime : PyVal → Bool
  | .vdatetime _ => true
  | _ => false

/-- `isinstance(v, str)`. -/
def isinstStr : PyVal → Bool
  | .vstr _ => true
  | _ => false

/-- `float(v)` for numeric and boolean values (exact-rational model). -/
def pyFloat : PyVal → Rat
  | .vint n => (n : Rat)
  | .vbool b => if b then 1 else 0
  | .vfloat q => q
  | .vdec q => q
  | _ => 0

/-- The `datetime` payload (only read under an `isinstDatetime` guard). -/
def getDatetime : PyVal → PyDateTime
  | .vdatetime d => d
  | _ => default

/-- The `str` payload (only read under an `isinstStr` guard). -/
def getStr : PyVal → String
  | .vstr s => s
  | _ => ""

/-- Is the value a float NaN object? -/
def isNaN : PyVal → Bool
  | .vfnan _ => true
  | _ => false

/-- `float(value).is_integer()`: false for NaN, otherwise integrality of
the exact rational value. -/
def pyIsInteger : PyVal → Bool
  | .vfnan _ => false
  | v => (pyFloat v).den == 1

/-- Round half to even, the rounding of Python's built-in `round`. -/
def roundHalfEven (q : Rat) : Int :=
  if Int.fract q < 1 / 2 then ⌊q⌋
  else if 1 / 2 < Int.fract q then ⌊q⌋ + 1
  else if ⌊q⌋ % 2 = 0 then ⌊q⌋ else ⌊q⌋ + 1

/-- Python's `round(x, 2)` over the exact-rational float model. -/
def pyRound2 (q : Rat) : Rat :=
  ((roundHalfEven (q * 100) : Int) : Rat) / 100

/-- `round(float(value), 2)` as a value: rounding a NaN returns a fresh
NaN object (a fresh identity tag), everything else rounds exactly. -/
def pyRound2Val : PyVal → PyVal
  | .vfnan i => .vfnan (i + 1)
  | v => .vfloat (pyRound2 (pyFloat v))

/-- `BaseTest._normalize_row`'s per-value normalization
(`src/ztbd/tests/base_test.py`, the body of the `for` loop).  The branch
order mirrors the source: `None` first, then the numeric `isinstance`
check — which, because `bool` is a subclass of `int` in Python, also
captures booleans — then `datetime`, then the (consequently unreachable)
`bool` branch, then `str`, with everything else passed through.  A NaN
float falls into the numeric branch, is not an integer, and is rounded to
a fresh NaN object. -/
def normVal (v : PyVal) : PyVal :=
  if v = PyVal.vnone then PyVal.vnone
  else if isinstInt v || isinstFloat v || isinstDec v then
    if isinstInt v || ((isinstFloat v || isinstDec v) && pyIsInteger v) then
      PyVal.vint (pyFloat v).num
    else
      pyRound2Val v
  else if isinstDatetime v then PyVal.vstr (isoformat (getDatetime v))
  else if isinstBool v then v
  else if isinstStr v then PyVal.vstr (pyStrip (getStr v))
  else v

/-- A result row: field name / value pairs in dict insertion order. -/
abbrev Row := List (String × PyVal)

/-- CPython dict assignment `d[k] = v`: update the first entry carrying the
key in place, otherwise append a fresh entry. -/
def dictInsert : Row → String → PyVal → Row
  | [], k, v => [(k, v)]
  | p :: rest, k, v =>
    if p.1 == k then (k, v) :: rest else p :: dictInsert rest k v

/-- `BaseTest._normalize_row`: lower-case every field name and normalize
every value, accumulating into a fresh dict. -/
def normalize_row (row : Row) : Row :=
  row.foldl (fun acc p => dictInsert acc (pyLower p.1) (normVal p.2)) []

/-- Python `==` between two row values: numeric kinds (including `bool`)
compare by numeric value — except that NaN compares unequal to
everything, itself included — and every other kind compares within its
own kind. -/
def pyEq (a b : PyVal) : Bool :=
  if (isinstInt a || isinstFloat a || isinstDec a)
      && (isinstInt b || isinstFloat b || isinstDec b) then
    if isNaN a || isNaN b then false
    else pyFloat a == pyFloat b
  else
    match a, b with
    | .vnone, .vnone => true
    | .vstr s, .vstr t => s == t
    | .vdatetime d, .vdatetime e => d == e
    | .vother m, .vother n => m == n
    | _, _ => false

/-- The per-value check CPython containers use (`Py_RichCompareBool`):
identical objects compare equal without calling `==`, otherwise `==`
decides.  Structural equality models `is` — the identity tag keeps
distinct NaN objects apart, and for every non-NaN value structural
equality already implies `==`. -/
def pyValSameOrEq (a b : PyVal) : Bool :=
  a == b || pyEq a b

/-- Python `==` between two rows viewed as dicts: equal sizes and every
key of the left row present in the right row with a value equal under the
container comparison (identity shortcut, then `==`). -/
def pyRowEq (a b : Row) : Bool :=
  a.length == b.length &&
    a.all fun p =>
      match b.lookup p.1 with
      | some w => pyValSameOrEq p.2 w
      | none => false

/-! ## Facts about the string primitives -/

theorem charLower_charLower (c : Char) : charLower (charLower c) = charLower c := by
  unfold charLower
  by_cases h : 65 ≤ c.toNat ∧ c.toNat ≤ 90
  · have hv : (c.toNat + 32).isValidChar := by
      left
      omega
    have htn : (Char.ofNat (c.toNat + 32)).toNat = c.toNat + 32 := by
      rw [Char.ofNat]
      simp [hv]
      rfl
    rw [if_pos h, htn,
      if_neg (by omega : ¬ (65 ≤ c.toNat + 32 ∧ c.toNat + 32 ≤ 90))]
  · rw [if_neg h, if_neg h]

theorem pyLower_pyLower (s : String) : pyLower (pyLower s) = pyLower s := by
  unfold pyLower
  simp [List.map_map, Function.comp_def, charLower_charLower]

theorem dropWhile_head_false {p : Char → Bool} {l : List Char} {a : Char}
    {t : List Char} (h : l.dropWhile p = a :: t) : p a = false := by
  have := List.head?_dropWhile_not p l
  rw [h] at this
  exact this

theorem dropWhile_dropWhile (p : Char → Bool) (l : List Char) :
    (l.dropWhile p).dropWhile p = l.dropWhile p := by
  cases h : l.dropWhile p with
  | nil => simp
  | cons a t =>
    have := dropWhile_head_false h
    simp [List.dropWhile_cons, this]

theorem dropWhile_eq_self_of_leading {p : Char → Bool} {l m : List Char}
    (h : m <+: l.dropWhile p) : m.dropWhile p = m := by
  cases hm : m with
  | nil => simp
  | cons a t =>
    rcases h with ⟨rest, hrest⟩
    rw [hm] at hrest
    have : p a = false := dropWhile_head_false hrest.symm
    simp [List.dropWhile_cons, this]

theorem pyStripList_pyStripList (l : List Char) :
    pyStripList (pyStripList l) = pyStripList l := by
  unfold pyStripList
  have h2 : (l.dropWhile isPySpace).reverse.dropWhile isPySpace
      <:+ (l.dropWhile isPySpace).reverse := List.dropWhile_suffix _
  have hpref : ((l.dropWhile isPySpace).reverse.dropWhile isPySpace).reverse
      <+: l.dropWhile isPySpace := by
    have h3 := List.reverse_prefix.mpr h2
    rwa [List.reverse_reverse] at h3
  rw [dropWhile_eq_self_of_leading hpref, List.reverse_reverse,
    dropWhile_dropWhile]

theorem pyStrip_pyStrip (s : String) : pyStrip (pyStrip s) = pyStrip s := by
  unfold pyStrip
  simp [pyStripList_pyStripList]

theorem dropWhile_eq_self_of_all {p : Char → Bool} {l : List Char}
    (h : ∀ c ∈ l, p c = false) : l.dropWhile p = l := by
  induction l with
  | nil => simp
  | cons a t ih =>
    have ha : p a = false := h a (List.mem_cons_self a t)
    simp [List.dropWhile_cons, ha]

theorem pyStripList_eq_self_of_all {l : List Char}
    (h : ∀ c ∈ l, isPySpace c = false) : pyStripList l = l := by
  unfold pyStripList
  rw [dropWhile_eq_self_of_all h, dropWhile_eq_self_of_all
    (fun c hc => h c (List.mem_reverse.mp hc)), List.reverse_reverse]

theorem digitChar_not_space (n : Nat) : isPySpace (digitChar n) = false := by
  unfold digitChar
  split <;> decide

theorem isoformatChars_not_space (d : PyDateTime) :
    ∀ c ∈ isoformatChars d, isPySpace c = false := by
  intro c hc
  unfold isoformatChars pad4 pad2 pad6 at hc
  by_cases hm : d.microsecond = 0
  · simp [hm, List.mem_append, List.mem_cons] at hc
    repeat' rcases hc with hc | hc
    all_goals first
      | exact digitChar_not_space _
      | decide
      | (subst hc; first | exact digitChar_not_space _ | decide)
  · simp [hm, List.mem_append, List.mem_cons] at hc
    repeat' rcases hc with hc | hc
    all_goals first
      | exact digitChar_not_space _
      | decide
      | (subst hc; first | exact digitChar_not_space _ | decide)

theorem pyStrip_isoformat (d : PyDateTime) :
    pyStrip (isoformat d) = isoformat d := by
  unfold pyStrip isoformat
  congr 1
  exact pyStripList_eq_self_of_all (isoformatChars_not_space d)

/-! ## Facts about rounding -/

theorem roundHalfEven_intCast (n : Int) : roundHalfEven ((n : Int) : Rat) = n := by
  unfold roundHalfEven
  have h0 : Int.fract ((n : Int) : Rat) = 0 := Int.fract_intCast n
  rw [h0]
  norm_num

theorem pyRound2_pyRound2 (q : Rat) : pyRound2 (pyRound2 q) = pyRound2 q := by
  unfold pyRound2
  have : ((roundHalfEven (q * 100) : Int) : Rat) / 100 * 100
      = ((roundHalfEven (q * 100) : Int) : Rat) := by
    field_simp
  rw [this, roundHalfEven_intCast]

/-! ## Per-value stability of the normalizer -/

theorem normVal_vnone : normVal .vnone = .vnone := by
  simp [normVal]

theorem normVal_vbool (b : Bool) :
    normVal (.vbool b) = .vint (if b then 1 else 0) := by
  cases b <;> rfl

theorem normVal_vint (n : Int) : normVal (.vint n) = .vint n := by
  simp [normVal, isinstInt, pyFloat]

theorem normVal_vfloat_int {q : Rat} (h : q.den = 1) :
    normVal (.vfloat q) = .vint q.num := by
  simp [normVal, isinstInt, isinstFloat, isinstDec, pyFloat, pyIsInteger, h]

theorem normVal_vfloat_frac {q : Rat} (h : q.den ≠ 1) :
    normVal (.vfloat q) = .vfloat (pyRound2 q) := by
  simp [normVal, isinstInt, isinstFloat, isinstDec, pyFloat, pyIsInteger,
    pyRound2Val, h]

theorem normVal_vfnan (i : Nat) : normVal (.vfnan i) = .vfnan (i + 1) := by
  simp [normVal, isinstInt, isinstFloat, isinstDec, pyIsInteger, pyRound2Val]

theorem normVal_vdec_int {q : Rat} (h : q.den = 1) :
    normVal (.vdec q) = .vint q.num := by
  simp [normVal, isinstInt, isinstFloat, isinstDec, pyFloat, pyIsInteger, h]

theorem normVal_vdec_frac {q : Rat} (h : q.den ≠ 1) :
    normVal (.vdec q) = .vfloat (pyRound2 q) := by
  simp [normVal, isinstInt, isinstFloat, isinstDec, pyFloat, pyIsInteger,
    pyRound2Val, h]

theorem normVal_vdatetime (d : PyDateTime) :
    normVal (.vdatetime d) = .vstr (isoformat d) := by
  simp [normVal, isinstInt, isinstFloat, isinstDec, isinstDatetime, getDatetime]

theorem normVal_vstr (s : String) : normVal (.vstr s) = .vstr (pyStrip s) := by
  simp [normVal, isinstInt, isinstFloat, isinstDec, isinstDatetime, isinstBool,
    isinstStr, getStr]

theorem normVal_vother (t : Nat) : normVal (.vother t) = .vother t := by
  simp [normVal, isinstInt, isinstFloat, isinstDec, isinstDatetime, isinstBool,
    isinstStr]

theorem pyEq_vint_self (n : Int) : pyEq (.vint n) (.vint n) = true := by
  simp [pyEq, isinstInt, isNaN]

theorem pyEq_vfloat_self (q : Rat) : pyEq (.vfloat q) (.vfloat q) = true := by
  simp [pyEq, isinstFloat, isNaN]

theorem pyEq_vint_vfloat {q : Rat} (h : q.den = 1) :
    pyEq (.vint q.num) (.vfloat q) = true := by
  have hq : ((q.num : Int) : Rat) = q := (Rat.den_eq_one_iff q).mp h
  simp [pyEq, isinstInt, isinstFloat, isinstDec, isNaN, pyFloat, hq]

/-- For every value that is not a float NaN, applying the per-value
normalization twice gives a value that Python's `==` cannot distinguish
from applying it once.  (A NaN is rounded to a fresh NaN on every pass,
and NaN compares unequal to everything.) -/
theorem normVal_stable (v : PyVal) (hv : isNaN v = false) :
    pyEq (normVal (normVal v)) (normVal v) = true := by
  cases v with
  | vfnan i => simp [isNaN] at hv
  | vnone => rw [normVal_vnone, normVal_vnone]; simp [pyEq, isinstInt, isinstFloat, isinstDec, isNaN]
  | vbool b =>
    rw [normVal_vbool]
    cases b <;> simp [normVal_vint, pyEq_vint_self]
  | vint n => rw [normVal_vint, normVal_vint]; exact pyEq_vint_self n
  | vfloat q =>
    by_cases h : q.den = 1
    · rw [normVal_vfloat_int h, normVal_vint]; exact pyEq_vint_self _
    · rw [normVal_vfloat_frac h]
      by_cases h2 : (pyRound2 q).den = 1
      · rw [normVal_vfloat_int h2]; exact pyEq_vint_vfloat h2
      · rw [normVal_vfloat_frac h2, pyRound2_pyRound2]; exact pyEq_vfloat_self _
  | vdec q =>
    by_cases h : q.den = 1
    · rw [normVal_vdec_int h, normVal_vint]; exact pyEq_vint_self _
    · rw [normVal_vdec_frac h]
      by_cases h2 : (pyRound2 q).den = 1
      · rw [normVal_vfloat_int h2]; exact pyEq_vint_vfloat h2
      · rw [normVal_vfloat_frac h2, pyRound2_pyRound2]; exact pyEq_vfloat_self _
  | vdatetime d =>
    rw [normVal_vdatetime, normVal_vstr, pyStrip_isoformat]
    simp [pyEq, isinstInt, isinstFloat, isinstDec, isNaN]
  | vstr s =>
    rw [normVal_vstr, normVal_vstr, pyStrip_pyStrip]
    simp [pyEq, isinstInt, isinstFloat, isinstDec, isNaN]
  | vother t =>
    rw [normVal_vother, normVal_vother]
    simp [pyEq, isinstInt, isinstFloat, isinstDec, isNaN]

/-! ## Dict-level facts about the normalizer -/

theorem mem_dictInsert {l : Row} {k : String} {v : PyVal} {p : String × PyVal}
    (h : p ∈ dictInsert l k v) : p = (k, v) ∨ p ∈ l := by
  induction l with
  | nil => simpa [dictInsert] using h
  | cons q rest ih =>
    rw [dictInsert] at h
    by_cases hq : q.1 == k
    · rw [if_pos hq] at h
      rcases List.mem_cons.mp h with h1 | h1
      · exact Or.inl h1
      · exact Or.inr (List.mem_cons_of_mem _ h1)
    · rw [if_neg hq] at h
      rcases List.mem_cons.mp h with h1 | h1
      · exact Or.inr (h1 ▸ List.mem_cons_self _ _)
      · rcases ih h1 with h2 | h2
        · exact Or.inl h2
        · exact Or.inr (List.mem_cons_of_mem _ h2)

theorem keys_dictInsert_mem {l : Row} {k : String} (v : PyVal)
    (h : k ∈ l.map Prod.fst) :
    (dictInsert l k v).map Prod.fst = l.map Prod.fst := by
  induction l with
  | nil => simp at h
  | cons q rest ih =>
    rw [dictInsert]
    by_cases hq : q.1 == k
    · rw [if_pos hq]
      have : q.1 = k := by simpa using hq
      simp [this]
    · rw [if_neg hq]
      have hk : k ∈ rest.map Prod.fst := by
        rcases List.mem_cons.mp h with h1 | h1
        · exact absurd (by simpa using h1.symm) hq
        · exact h1
      simp [ih hk]

theorem keys_dictInsert_not_mem {l : Row} {k : String} (v : PyVal)
    (h : k ∉ l.map Prod.fst) : dictInsert l k v = l ++ [(k, v)] := by
  induction l with
  | nil => rfl
  | cons q rest ih =>
    rw [dictInsert]
    have hq : ¬ (q.1 == k) := by
      intro hq
      exact h (by simp [(by simpa using hq : q.1 = k)])
    rw [if_neg hq]
    have : k ∉ rest.map Prod.fst := fun hk => h (by simp [hk])
    simp [ih this]

theorem nodup_keys_dictInsert {l : Row} {k : String} {v : PyVal}
    (h : (l.map Prod.fst).Nodup) :
    ((dictInsert l k v).map Prod.fst).Nodup := by
  by_cases hk : k ∈ l.map Prod.fst
  · rw [keys_dictInsert_mem v hk]; exact h
  · rw [keys_dictInsert_not_mem v hk]
    simp only [List.map_append, List.map_cons, List.map_nil]
    exact List.Nodup.append h (List.nodup_singleton k) (by simpa using hk)

/-- The invariant of already-normalized rows: keys are duplicate-free and
lower-case fixed, and values are `==`-stable under a further `normVal`. -/
def RowNormed (l : Row) : Prop :=
  (l.map Prod.fst).Nodup ∧ (∀ p ∈ l, pyLower p.1 = p.1) ∧
    (∀ p ∈ l, pyEq (normVal p.2) p.2 = true)

theorem rowNormed_dictInsert {l : Row} {k : String} {v : PyVal}
    (h : RowNormed l) (hk : pyLower k = k) (hv : pyEq (normVal v) v = true) :
    RowNormed (dictInsert l k v) := by
  refine ⟨nodup_keys_dictInsert h.1, ?_, ?_⟩
  · intro p hp
    rcases mem_dictInsert hp with rfl | hp2
    · exact hk
    · exact h.2.1 p hp2
  · intro p hp
    rcases mem_dictInsert hp with rfl | hp2
    · exact hv
    · exact h.2.2 p hp2

theorem rowNormed_foldl :
    ∀ row : Row, (∀ p ∈ row, isNaN p.2 = false) →
      ∀ acc : Row, RowNormed acc →
        RowNormed (row.foldl
          (fun acc p => dictInsert acc (pyLower p.1) (normVal p.2)) acc) := by
  intro row
  induction row with
  | nil => intro _ acc h; exact h
  | cons p rest ih =>
    intro hrow acc h
    exact ih (fun q hq => hrow q (List.mem_cons_of_mem _ hq)) _
      (rowNormed_dictInsert h (pyLower_pyLower p.1)
        (normVal_stable p.2 (hrow p (List.mem_cons_self _ _))))

theorem rowNormed_normalize_row (row : Row)
    (hrow : ∀ p ∈ row, isNaN p.2 = false) : RowNormed (normalize_row row) :=
  rowNormed_foldl row hrow [] ⟨List.nodup_nil, by simp, by simp⟩

theorem foldl_dictInsert_fresh (l : Row) :
    ∀ acc : Row, (l.map Prod.fst).Nodup → (∀ p ∈ l, pyLower p.1 = p.1) →
      (∀ k ∈ acc.map Prod.fst, k ∉ l.map Prod.fst) →
      l.foldl (fun acc p => dictInsert acc (pyLower p.1) (normVal p.2)) acc
        = acc ++ l.map (fun p => (p.1, normVal p.2)) := by
  induction l with
  | nil => intro acc _ _ _; simp
  | cons p rest ih =>
    intro acc hnd hlow hfresh
    have hp1 : pyLower p.1 = p.1 := hlow p (List.mem_cons_self _ _)
    have hnotacc : p.1 ∉ acc.map Prod.fst := by
      intro hmem
      exact hfresh p.1 hmem (by simp)
    have step : dictInsert acc (pyLower p.1) (normVal p.2)
        = acc ++ [(p.1, normVal p.2)] := by
      rw [hp1]; exact keys_dictInsert_not_mem _ hnotacc
    rw [List.foldl_cons, step]
    rw [List.map_cons] at hnd
    have hnd' : (rest.map Prod.fst).Nodup := (List.nodup_cons.mp hnd).2
    have hhead : p.1 ∉ rest.map Prod.fst := (List.nodup_cons.mp hnd).1
    have hfresh' : ∀ k ∈ (acc ++ [(p.1, normVal p.2)]).map Prod.fst,
        k ∉ rest.map Prod.fst := by
      intro k hk
      simp only [List.map_append, List.mem_append, List.map_cons, List.map_nil,
        List.mem_cons, List.not_mem_nil, or_false, List.mem_singleton] at hk
      rcases hk with hk | hk
      · intro hk2
        exact hfresh k hk (by simp [hk2])
      · subst hk
        exact hhead
    rw [ih _ hnd' (fun q hq => hlow q (List.mem_cons_of_mem _ hq)) hfresh']
    simp

theorem normalize_row_of_normed {l : Row} (h : RowNormed l) :
    normalize_row l = l.map (fun p => (p.1, normVal p.2)) := by
  unfold normalize_row
  have := foldl_dictInsert_fresh l [] h.1 h.2.1 (by simp)
  simpa using this

theorem lookup_of_mem_nodup {l : Row} (hn : (l.map Prod.fst).Nodup)
    {k : String} {v : PyVal} (h : (k, v) ∈ l) : l.lookup k = some v := by
  induction l with
  | nil => simp at h
  | cons q rest ih =>
    obtain ⟨k0, v0⟩ := q
    rw [List.map_cons] at hn
    rw [List.lookup_cons]
    by_cases hk : k = k0
    · subst hk
      simp only [beq_self_eq_true]
      rcases List.mem_cons.mp h with h1 | h1
      · simpa using congrArg Prod.snd h1.symm
      · exfalso
        exact (List.nodup_cons.mp hn).1
          (by simpa using List.mem_map_of_mem Prod.fst h1)
    · have hkb : (k == k0) = false := by simpa using hk
      rw [hkb]
      rcases List.mem_cons.mp h with h1 | h1
      · exact absurd (congrArg Prod.fst h1) (by simpa using hk)
      · exact ih (List.nodup_cons.mp hn).2 h1

/-- C7, counterexample.  Row normalization is not idempotent on every
float-valued row: for a NaN field, `round(float(nan), 2)` returns a fresh
NaN object on each pass and NaN compares unequal to everything, so
`normalize(normalize({'x': nan})) == normalize({'x': nan})` is `False` in
the source — the two sides hold distinct NaN objects and the container
identity shortcut does not fire. -/
theorem c7_counterexample_nan_breaks_idempotence :
    pyRowEq (normalize_row (normalize_row [("x", PyVal.vfnan 0)]))
      (normalize_row [("x", PyVal.vfnan 0)]) = false := by
  decide

/-- C7, amended.  Row normalization is idempotent for every row none of
whose field values is a float NaN (so for all `None`, `int`, finite
`float`, finite `Decimal`, `datetime`, `bool` and `str` values):
normalizing twice yields a row that Python's `==` cannot distinguish from
normalizing once. -/
theorem c7_amended_normalize_row_idempotent (row : Row)
    (hrow : (row.all (fun p => !isNaN p.2)) = true) :
    pyRowEq (normalize_row (normalize_row row)) (normalize_row row) = true := by
  have hrow2 : ∀ p ∈ row, isNaN p.2 = false := by
    intro p hp
    simpa using List.all_eq_true.mp hrow p hp
  have hn := rowNormed_normalize_row row hrow2
  have hmap := normalize_row_of_normed hn
  rw [pyRowEq, hmap]
  apply Bool.and_eq_true_iff.mpr
  constructor
  · simp
  · rw [List.all_eq_true]
    intro p hp
    obtain ⟨q, hq, rfl⟩ := List.mem_map.mp hp
    rw [lookup_of_mem_nodup hn.1 hq]
    simp [pyValSameOrEq, hn.2.2 q hq]

/-- The NaN-free row of the C7 witness. -/
def c7row : Row :=
  [("Name", PyVal.vstr "  Portal "), ("Price", PyVal.vfloat (399 / 100)),
   ("Owners", PyVal.vint 5), ("Free", PyVal.vbool true),
   ("Released", PyVal.vnone)]

theorem c7_witness :
    (c7row.all (fun p => !isNaN p.2)) = true ∧
    pyRowEq (normalize_row (normalize_row c7row)) (normalize_row c7row)
      = true :=
  ⟨by decide, c7_amended_normalize_row_idempotent c7row (by decide)⟩

/-! ## QueryResult and execute_with_timing (`src/ztbd/tests/base_test.py`) -/

/-- The `QueryResult` dataclass, minus the wall-clock `timestamp` field
(`datetime.now()`, no decision logic). -/
structure QueryResult where
  rows : List Row
  row_count : Nat
  execution_time : Rat
  database : String
  test_name : String
  error : Option String := none
deriving DecidableEq, Repr

instance : Inhabited QueryResult := ⟨⟨[], 0, 0, "", "", none⟩⟩

/-- The exception text raised when `QueryResult.__post_init__` evaluates
`self._normalize_row(row)`: the dataclass neither defines nor inherits
`_normalize_row` (that method lives on `BaseTest`), so the attribute
lookup fails with an `AttributeError`. -/
def attributeErrorText : String :=
  "AttributeError: QueryResult object has no attribute _normalize_row"

/-- Attribute lookup plus call of `self._normalize_row(row)` on a
`QueryResult` instance, performed once per row by the `__post_init__`
list comprehension; it always raises. -/
def queryResultNormRow (_ : Row) : Except String Row :=
  .error attributeErrorText

/-- The `[self._normalize_row(row) for row in self.rows]` comprehension,
evaluated left to right: on a non-empty list the first element raises. -/
def postInitRows : List Row → Except String (List Row)
  | [] => .ok []
  | r :: rest =>
    match queryResultNormRow r with
    | .error e => .error e
    | .ok nr =>
      match postInitRows rest with
      | .error e => .error e
      | .ok nrs => .ok (nr :: nrs)

/-- Construction of a `QueryResult`, including `__post_init__`: a `None`
rows argument becomes `[]`, `row_count` is recomputed as `len(self.rows)`,
then every row is passed through `self._normalize_row`.  The `row_count`
argument is therefore ignored, exactly as in the source. -/
def mkQueryResult (rows : Option (List Row)) (_row_count : Nat)
    (execution_time : Rat) (database test_name : String)
    (error : Option String := none) : Except String QueryResult :=
  let rows := rows.getD []
  match postInitRows rows with
  | .ok nr =>
    .ok { rows := nr, row_count := rows.length,
          execution_time := execution_time, database := database,
          test_name := test_name, error := error }
  | .error e => .error e

/-- What the callable handed to `execute_with_timing` returned: a
`QueryResult`, a raw list of rows, or something else. -/
inductive FuncRet where
  | qres (q : QueryResult)
  | rawList (rs : List Row)
  | nonList
deriving DecidableEq, Repr

/-- A `run_*` method of a catalog case (`test_queries.py`): it queries the
backend for rows and returns
`QueryResult(rows=rows, row_count=0, execution_time=0, ...)` — the
construction happens inside the method, before `execute_with_timing`
regains control. -/
def run_backend_query (db test : String)
    (queryOutcome : Except String (List Row)) : Except String FuncRet :=
  match queryOutcome with
  | .error e => .error e
  | .ok rs => (mkQueryResult (some rs) 0 0 db test).map .qres

/-- `BaseTest.execute_with_timing`: run the callable under `try`, patch the
measured wall-clock time into a returned `QueryResult`, wrap a raw list in
a fresh `QueryResult`, and convert any exception into a failed zero-row
`QueryResult` carrying the exception text. -/
def execute_with_timing (db test : String) (elapsed : Rat)
    (call : Except String FuncRet) : QueryResult :=
  match call with
  | .ok (.qres q) => { q with execution_time := elapsed }
  | .ok (.rawList rs) =>
    match mkQueryResult (some rs) rs.length elapsed db test with
    | .ok q => q
    | .error e =>
      { rows := [], row_count := 0, execution_time := 0, database := db,
        test_name := test, error := some e }
  | .ok .nonList =>
    match mkQueryResult (some []) 0 elapsed db test with
    | .ok q => q
    | .error e =>
      { rows := [], row_count := 0, execution_time := 0, database := db,
        test_name := test, error := some e }
  | .error e =>
    { rows := [], row_count := 0, execution_time := 0, database := db,
      test_name := test, error := some e }

/-- C1.  Constructing a `QueryResult` with a non-empty rows list raises
`AttributeError` (because `_normalize_row` is defined on `BaseTest`, not
on the `QueryResult` dataclass), so inside `execute_with_timing` every
backend query returning at least one row is caught and recorded as a
failed `QueryResult` with `rows=[]`, `row_count=0` and a non-`None`
error; normalization is never successfully applied to a non-empty result
set. -/
theorem c1_nonempty_rows_raise_attribute_error (db test : String)
    (elapsed : Rat) (rs : List Row) (h : rs.isEmpty = false) :
    mkQueryResult (some rs) 0 0 db test = .error attributeErrorText ∧
    execute_with_timing db test elapsed
        (run_backend_query db test (.ok rs)) =
      { rows := [], row_count := 0, execution_time := 0, database := db,
        test_name := test, error := some attributeErrorText } := by
  obtain ⟨r, rest, rfl⟩ : ∃ r rest, rs = r :: rest := by
    cases rs with
    | nil => simp at h
    | cons r rest => exact ⟨r, rest, rfl⟩
  exact ⟨rfl, rfl⟩

theorem c1_witness :
    ([[("appid", PyVal.vint 10)]] : List Row).isEmpty = false ∧
    (mkQueryResult (some [[("appid", PyVal.vint 10)]]) 0 0 "postgresql"
        "simple_select_expensive_games" = .error attributeErrorText ∧
      execute_with_timing "postgresql" "simple_select_expensive_games" 1
          (run_backend_query "postgresql" "simple_select_expensive_games"
            (.ok [[("appid", PyVal.vint 10)]])) =
        { rows := [], row_count := 0, execution_time := 0,
          database := "postgresql",
          test_name := "simple_select_expensive_games",
          error := some attributeErrorText }) :=
  ⟨rfl, c1_nonempty_rows_raise_attribute_error "postgresql"
    "simple_select_expensive_games" 1 [[("appid", PyVal.vint 10)]] rfl⟩

/-- C2.  The spec says booleans pass through `_normalize_row` unchanged,
and the source even carries a dedicated `isinstance(value, bool)` branch
returning `bool(value)` — but in Python `bool` is a subclass of `int`, so
the earlier numeric branch captures booleans first and emits
`int(float(value))`: `True` becomes the integer `1` and `False` the
integer `0`, and the dedicated bool branch is unreachable.  This theorem
evaluates the embedded normalizer at the failing inputs. -/
theorem c2_bool_is_normalized_to_int :
    normalize_row [("Flag", PyVal.vbool true)] = [("flag", PyVal.vint 1)] ∧
    normalize_row [("flag", PyVal.vbool false)] = [("flag", PyVal.vint 0)] ∧
    normalize_row [("Flag", PyVal.vbool true)] ≠ [("flag", PyVal.vbool true)] := by
  refine ⟨?_, ?_, ?_⟩ <;> decide

/-! ## The total order underlying Python's `sorted` on strings -/

theorem codesLt_cons (x y : Nat) (as bs : List Nat) :
    codesLt (x :: as) (y :: bs)
      = if x < y then true else if y < x then false else codesLt as bs := rfl

theorem codesLt_irrefl : ∀ a : List Nat, codesLt a a = false := by
  intro a
  induction a with
  | nil => rfl
  | cons x as ih => simp [codesLt_cons, ih]

theorem codesLt_trans :
    ∀ a b c : List Nat, codesLt a b = true → codesLt b c = true →
      codesLt a c = true := by
  intro a
  induction a with
  | nil =>
    intro b c hab hbc
    cases b with
    | nil => simp [codesLt] at hab
    | cons y bs =>
      cases c with
      | nil => simp [codesLt] at hbc
      | cons z cs => simp [codesLt]
  | cons x as ih =>
    intro b c hab hbc
    cases b with
    | nil => simp [codesLt] at hab
    | cons y bs =>
      cases c with
      | nil => simp [codesLt] at hbc
      | cons z cs =>
        rw [codesLt_cons] at hab hbc ⊢
        by_cases h1 : x < y
        · by_cases h2 : y < z
          · simp [Nat.lt_trans h1 h2]
          · by_cases h3 : z < y
            · rw [if_neg h2, if_pos h3] at hbc
              exact absurd hbc (by simp)
            · have hyz : y = z := Nat.le_antisymm (Nat.not_lt.mp h3) (Nat.not_lt.mp h2)
              simp [hyz ▸ h1]
        · by_cases h4 : y < x
          · rw [if_neg h1, if_pos h4] at hab
            exact absurd hab (by simp)
          · have hxy : x = y := Nat.le_antisymm (Nat.not_lt.mp h4) (Nat.not_lt.mp h1)
            subst hxy
            rw [if_neg h1, if_neg h4] at hab
            by_cases h2 : x < z
            · simp [h2]
            · by_cases h3 : z < x
              · rw [if_neg h2, if_pos h3] at hbc
                exact absurd hbc (by simp)
              · rw [if_neg h2, if_neg h3] at hbc ⊢
                exact ih bs cs hab hbc

theorem codesLt_asymm {a b : List Nat} (h : codesLt a b = true) :
    codesLt b a = false := by
  by_contra hne
  have hba : codesLt b a = true := by
    cases hval : codesLt b a with
    | false => exact absurd hval hne
    | true => rfl
  have := codesLt_trans a b a h hba
  rw [codesLt_irrefl] at this
  exact absurd this (by simp)

theorem codesLt_connex :
    ∀ a b : List Nat, codesLt a b = false → codesLt b a = false → a = b := by
  intro a
  induction a with
  | nil =>
    intro b hab _
    cases b with
    | nil => rfl
    | cons y bs => simp [codesLt] at hab
  | cons x as ih =>
    intro b hab hba
    cases b with
    | nil => simp [codesLt] at hba
    | cons y bs =>
      rw [codesLt_cons] at hab hba
      by_cases h1 : x < y
      · rw [if_pos h1] at hab
        exact absurd hab (by simp)
      · by_cases h2 : y < x
        · rw [if_pos h2] at hba
          · exact absurd hba (by simp)
        · have hxy : x = y := Nat.le_antisymm (Nat.not_lt.mp h2) (Nat.not_lt.mp h1)
          subst hxy
          rw [if_neg h1, if_neg h1] at hab hba
          rw [ih bs hab hba]

theorem char_toNat_injective : Function.Injective Char.toNat := by
  intro c d h
  exact Char.ext (UInt32.ext h)

theorem codes_injective {s t : String} (h : codes s = codes t) : s = t := by
  have hd : s.data = t.data :=
    List.map_injective_iff.mpr char_toNat_injective h
  cases s
  cases t
  exact congrArg String.mk hd

instance : IsTotal String pyStrLe := by
  constructor
  intro a b
  by_cases h : codesLt (codes b) (codes a) = true
  · right
    simp [pyStrLe, pyStrLt, codesLt_asymm h]
  · left
    exact h

instance : IsTrans String pyStrLe := by
  constructor
  intro a b c h1 h2
  rw [pyStrLe, pyStrLt] at h1 h2 ⊢
  intro hca
  by_cases hbc : codesLt (codes b) (codes c) = true
  · exact h1 (codesLt_trans _ _ _ hbc hca)
  · have hb : codes b = codes c := by
      refine codesLt_connex _ _ ?_ ?_
      · simpa using hbc
      · simpa using h2
    exact h1 (hb ▸ hca)

instance : IsAntisymm String pyStrLe := by
  constructor
  intro a b h1 h2
  rw [pyStrLe, pyStrLt] at h1 h2
  exact codes_injective (codesLt_connex _ _ (by simpa using h2) (by simpa using h1))

/-! ## Canonical Model Builder (`src/ztbd/normalizer.py`) -/

/-- One cell of an array/scalar column of the games dataframe: `NaN`, a
single string, or a list of strings. -/
inductive PyField where
  | fnone
  | fstr (s : String)
  | flist (l : List String)
deriving DecidableEq, Repr

/-- A row of the games dataframe, restricted to the columns the modelled
functions read.  `tags` is the tag → vote-count dict (`[]` both for an
empty dict and for a missing value, which the source skips alike). -/
structure Game where
  appid : Int
  developers : PyField := .fnone
  genres : PyField := .fnone
  tags : List (String × Int) := []
  price : Option Rat := none
  discount : Option Rat := none
deriving DecidableEq, Repr

/-- Decidable equality of exception-carrying results, used to evaluate
the fallible builders on concrete inputs. -/
instance {e a : Type _} [DecidableEq e] [DecidableEq a] :
    DecidableEq (Except e a) := fun x y =>
  match x, y with
  | .error u, .error v =>
    if h : u = v then .isTrue (congrArg Except.error h)
    else .isFalse (fun hc => h (Except.error.inj hc))
  | .ok u, .ok v =>
    if h : u = v then .isTrue (congrArg Except.ok h)
    else .isFalse (fun hc => h (Except.ok.inj hc))
  | .error _, .ok _ => .isFalse (fun hc => Except.noConfusion hc)
  | .ok _, .error _ => .isFalse (fun hc => Except.noConfusion hc)

/-- The exception text of evaluating `pd.notna(cell).any()` on a scalar
cell: for scalars (`None` — which `parse_json_columns` in `ztbdf.py`
stores for missing entries —, NaN, or a bare string) `pd.notna` returns a
plain Python `bool`, and `bool` has no `.any()`. -/
def notnaAnyErrorText : String :=
  "AttributeError: bool object has no attribute any"

/-- The guard `pd.notna(row[col]).any() and row[col]`.  On a list cell
`pd.notna` returns a boolean array, `.any()` is the list's non-emptiness
(all elements are non-NA strings) and the trailing truthiness check
agrees; on every scalar cell the guard itself raises `AttributeError`
(see `notnaAnyErrorText`), uncaught by the Builder. -/
def fieldGuard : PyField → Except String Bool
  | .flist l => .ok (!l.isEmpty)
  | _ => .error notnaAnyErrorText

/-- The values a cell whose guard passed contributes.  The guard only
survives list cells, so the `isinstance(row[col], list)` branch always
takes the list itself; the scalar wrap `[row[col]]` of the source is dead
code — the guard raises on scalar cells before reaching it. -/
def fieldValues : PyField → List String
  | .flist l => l
  | _ => []

/-- `set.add`: a set modelled as a duplicate-free list in insertion order. -/
def setAdd (l : List String) (s : String) : List String :=
  if s ∈ l then l else l ++ [s]

/-- The set-collection loop shared by `extract_developers`,
`extract_publishers`, `extract_genres` and `extract_categories`: iterate
the game rows in order, raising at the first scalar cell, and union the
values of every non-empty list cell (`set.update` adds the elements one
by one). -/
def collectFieldAux (get : Game → PyField) :
    List Game → List String → Except String (List String)
  | [], acc => .ok acc
  | g :: rest, acc =>
    match fieldGuard (get g) with
    | .error e => .error e
    | .ok b =>
      collectFieldAux get rest
        (if b then (fieldValues (get g)).foldl setAdd acc else acc)

/-- The collected value set of one column, or the guard's exception. -/
def collectField (get : Game → PyField) (games : List Game) :
    Except String (List String) :=
  collectFieldAux get games []

/-- `sorted(values)` followed by the `if dev` truthiness filter of the
dataframe comprehension.  `insertionSort` stands in for Python's stable
sort; on the duplicate-free collected list any correct sort returns the
one sorted arrangement. -/
def sortedNonEmptyNames (collected : List String) : List String :=
  (collected.insertionSort pyStrLe).filter (fun s => s != "")

/-- `DataNormalizer.extract_developers`, reduced to the `name` column of
the produced dataframe (the dataframe has no other column); raises on any
scalar `developers` cell. -/
def extract_developers (games : List Game) : Except String (List String) :=
  (collectField Game.developers games).map sortedNonEmptyNames

/-- `DataNormalizer.extract_genres`, reduced to its `name` column. -/
def extract_genres (games : List Game) : Except String (List String) :=
  (collectField Game.genres games).map sortedNonEmptyNames

/-- `{row['name']: idx + 1 for idx, row in df.iterrows()}`, with `i` the
index of the first listed row. -/
def nameLookupAux (i : Nat) : List String → List (String × Nat)
  | [] => []
  | n :: rest => (n, i + 1) :: nameLookupAux (i + 1) rest

/-- The surrogate-key lookup built from a finalized dimension dataframe. -/
def nameLookup (names : List String) : List (String × Nat) :=
  nameLookupAux 0 names

/-- One association row; the source names the second field
`developer_id` / `genre_id` per table. -/
structure AssocRow where
  game_appid : Int
  dimension_id : Nat
deriving DecidableEq, Repr

/-- The association loop shared by
`create_game_developer_associations` and `create_game_genre_associations`:
iterate the game rows in order, raising at the first scalar cell
(identical guard), and for every non-empty list cell one row per value
found in the lookup, in source order. -/
def buildAssociationsAux (get : Game → PyField)
    (lookup : List (String × Nat)) :
    List Game → List AssocRow → Except String (List AssocRow)
  | [], acc => .ok acc
  | g :: rest, acc =>
    match fieldGuard (get g) with
    | .error e => .error e
    | .ok b =>
      buildAssociationsAux get lookup rest
        (if b then
          acc ++ (fieldValues (get g)).filterMap
            (fun d => (lookup.lookup d).map (fun i => ⟨g.appid, i⟩))
        else acc)

/-- `DataNormalizer.create_game_developer_associations`, with `dev_lookup`
built from the finalized developers dataframe. -/
def create_game_developer_associations (games : List Game)
    (developers : List String) : Except String (List AssocRow) :=
  buildAssociationsAux Game.developers (nameLookup developers) games []

/-- `DataNormalizer.create_game_genre_associations`. -/
def create_game_genre_associations (games : List Game)
    (genres : List String) : Except String (List AssocRow) :=
  buildAssociationsAux Game.genres (nameLookup genres) games []

/-- The rows of the dataframe a successful `extract_developers` returns:
`[{'name': dev} for dev in sorted(developers) if dev]`. -/
def extract_developers_rows (names : List String) : List Row :=
  names.map (fun n => [("name", PyVal.vstr n)])

/-- `tags_dict[tag] = 0` when absent, then `tags_dict[tag] += votes`
(CPython dict semantics: update in place, append fresh keys). -/
def addTagVotes (acc : List (String × Int)) (t : String) (v : Int) :
    List (String × Int) :=
  if t ∈ acc.map Prod.fst then
    acc.map (fun p => if p.1 == t then (p.1, p.2 + v) else p)
  else acc ++ [(t, v)]

/-- The tag-votes accumulation loop of `extract_tags`. -/
def collectTags (games : List Game) : List (String × Int) :=
  games.foldl
    (fun acc g =>
      if !g.tags.isEmpty then
        g.tags.foldl (fun a p => addTagVotes a p.1 p.2) acc
      else acc)
    []

/-- `sorted(tags_dict.items())`: Python tuples compare lexicographically. -/
def tagPairLe (a b : String × Int) : Prop :=
  pyStrLt a.1 b.1 ∨ (a.1 = b.1 ∧ a.2 ≤ b.2)

instance : DecidableRel tagPairLe := fun a b => by
  unfold tagPairLe; infer_instance

/-- `DataNormalizer.extract_tags`, reduced to its `(name, total_votes)`
columns. -/
def extract_tags (games : List Game) : List (String × Int) :=
  (collectTags games).insertionSort tagPairLe

/-- The rows of the dataframe `extract_tags` returns. -/
def extract_tags_rows (games : List Game) : List Row :=
  (extract_tags games).map
    (fun p => [("name", PyVal.vstr p.1), ("total_votes", PyVal.vint p.2)])

/-! ### Facts about extraction -/

theorem nodup_setAdd {l : List String} {s : String} (h : l.Nodup) :
    (setAdd l s).Nodup := by
  unfold setAdd
  by_cases hs : s ∈ l
  · rw [if_pos hs]; exact h
  · rw [if_neg hs]
    exact List.Nodup.append h (List.nodup_singleton s) (by simpa using hs)

theorem nodup_foldl_setAdd (vals : List String) :
    ∀ acc : List String, acc.Nodup → (vals.foldl setAdd acc).Nodup := by
  induction vals with
  | nil => intro acc h; exact h
  | cons v rest ih => intro acc h; exact ih _ (nodup_setAdd h)

theorem collectFieldAux_ok_nodup (get : Game → PyField) :
    ∀ (games : List Game) (acc : List String), acc.Nodup →
      ∀ out : List String, collectFieldAux get games acc = .ok out →
        out.Nodup := by
  intro games
  induction games with
  | nil =>
    intro acc hacc out h
    rw [collectFieldAux] at h
    cases h
    exact hacc
  | cons g rest ih =>
    intro acc hacc out h
    rw [collectFieldAux] at h
    cases hg : fieldGuard (get g) with
    | error e => simp [hg] at h
    | ok b =>
      simp only [hg] at h
      refine ih _ ?_ out h
      by_cases hb : b
      · simpa [hb] using nodup_foldl_setAdd _ acc hacc
      · simpa [hb] using hacc

/-- Inverting a successful extraction: the sorted-filtered names of some
successfully collected set. -/
theorem extract_developers_ok {games : List Game} {names : List String}
    (h : extract_developers games = .ok names) :
    ∃ collected, collectField Game.developers games = .ok collected ∧
      names = sortedNonEmptyNames collected := by
  unfold extract_developers at h
  cases hc : collectField Game.developers games with
  | error e => rw [hc] at h; exact absurd h (by simp [Except.map])
  | ok c =>
    rw [hc] at h
    refine ⟨c, rfl, ?_⟩
    simpa [Except.map] using h.symm

theorem sortedNonEmptyNames_sorted (l : List String) :
    List.Sorted pyStrLe (sortedNonEmptyNames l) :=
  (List.sorted_insertionSort pyStrLe l).filter _

theorem sortedNonEmptyNames_nodup {l : List String} (h : l.Nodup) :
    (sortedNonEmptyNames l).Nodup :=
  List.Nodup.filter _ ((List.perm_insertionSort pyStrLe l).nodup_iff.mpr h)

/-- Two set enumerations that are permutations of each other sort (and
then filter) to the same list: the determinism core of the surrogate-key
assignment. -/
theorem sortedNonEmptyNames_perm_invariant {a b : List String}
    (h : a.Perm b) : sortedNonEmptyNames a = sortedNonEmptyNames b := by
  unfold sortedNonEmptyNames
  congr 1
  refine List.eq_of_perm_of_sorted ?_ (List.sorted_insertionSort _ _)
    (List.sorted_insertionSort _ _)
  exact ((List.perm_insertionSort _ a).trans h).trans
    (List.perm_insertionSort _ b).symm

theorem lookup_nameLookupAux_bounds :
    ∀ (names : List String) (i : Nat) (n : String) (k : Nat),
      (nameLookupAux i names).lookup n = some k →
        i + 1 ≤ k ∧ k ≤ i + names.length := by
  intro names
  induction names with
  | nil => intro i n k h; simp [nameLookupAux] at h
  | cons a t ih =>
    intro i n k h
    rw [nameLookupAux, List.lookup_cons] at h
    by_cases hn : n == a
    · rw [hn] at h
      simp only at h
      have : k = i + 1 := by simpa using h.symm
      subst this
      simp only [List.length_cons]
      omega
    · have hnb : (n == a) = false := by simpa using hn
      rw [hnb] at h
      have := ih (i + 1) n k h
      simp only [List.length_cons]
      omega

/-- In a sorted duplicate-free dimension, the surrogate id assigned by the
enumeration lookup is one plus the number of names strictly below. -/
theorem lookup_nameLookupAux_sorted :
    ∀ (names : List String), List.Sorted pyStrLe names → names.Nodup →
      ∀ (i : Nat) (n : String), n ∈ names →
        (nameLookupAux i names).lookup n
          = some (i + (names.filter
              (fun m => codesLt (codes m) (codes n))).length + 1) := by
  intro names
  induction names with
  | nil => intro _ _ i n h; simp at h
  | cons a t ih =>
    intro hs hd i n hn
    have hs2 := List.sorted_cons.mp hs
    have hd2 := List.nodup_cons.mp hd
    rw [nameLookupAux]
    by_cases hna : n = a
    · subst hna
      have hhead : codesLt (codes n) (codes n) = false := codesLt_irrefl _
      have htail : ∀ m ∈ t, codesLt (codes m) (codes n) = false := by
        intro m hm
        have := hs2.1 m hm
        rw [pyStrLe, pyStrLt] at this
        simpa using this
      have hfilter :
          (n :: t).filter (fun m => codesLt (codes m) (codes n)) = [] := by
        rw [List.filter_cons, if_neg (by simp [hhead])]
        exact List.filter_eq_nil_iff.mpr (fun m hm => by simp [htail m hm])
      rw [hfilter]
      simp [List.lookup_cons]
    · have hnb : (n == a) = false := by simpa using hna
      have hnt : n ∈ t := by
        rcases List.mem_cons.mp hn with h1 | h1
        · exact absurd h1 hna
        · exact h1
      have hlt : codesLt (codes a) (codes n) = true := by
        have hle := hs2.1 n hnt
        rw [pyStrLe, pyStrLt] at hle
        have hna2 : codesLt (codes n) (codes a) = false := by simpa using hle
        cases hval : codesLt (codes a) (codes n) with
        | true => rfl
        | false =>
          exact absurd (codes_injective (codesLt_connex _ _ hval hna2))
            (fun he => hna he.symm)
      rw [List.lookup_cons]
      simp only [hnb]
      rw [ih hs2.2 hd2.2 (i + 1) n hnt]
      rw [List.filter_cons, if_pos (by simp [hlt])]
      simp only [List.length_cons, Option.some.injEq]
      omega

/-- C3.  Whenever dimension extraction runs to completion (every
`developers` cell a list — on a scalar cell the guard itself raises and no
dimension exists), the surrogate id the association-building lookup
assigns to a name equals that name's 1-based position in the
lexicographically sorted sequence of distinct non-empty extracted names
(equivalently: one plus the number of extracted names strictly below it),
and the pipeline is insensitive to the unspecified iteration order of the
Python set it sorts: a run whose set enumerates in any other order
produces the identical dimension table, hence identical
`(surrogate_id, name)` pairs in identical order. -/
theorem c3_surrogate_ids_deterministic (games : List Game)
    (collected setOrder : List String)
    (hok : collectField Game.developers games = .ok collected)
    (hperm : setOrder.Perm collected) :
    Except.ok (sortedNonEmptyNames setOrder) = extract_developers games ∧
    (sortedNonEmptyNames collected).map
        (fun n => (nameLookup (sortedNonEmptyNames collected)).lookup n)
      = (sortedNonEmptyNames collected).map
        (fun n => some (((sortedNonEmptyNames collected).filter
            (fun m => codesLt (codes m) (codes n))).length + 1)) := by
  have hnd : collected.Nodup :=
    collectFieldAux_ok_nodup Game.developers games [] List.nodup_nil
      collected hok
  constructor
  · unfold extract_developers collectField at *
    rw [hok, sortedNonEmptyNames_perm_invariant hperm]
    rfl
  · apply List.map_congr_left
    intro n hn
    have hsorted := sortedNonEmptyNames_sorted collected
    have hnd2 := sortedNonEmptyNames_nodup hnd
    have := lookup_nameLookupAux_sorted (sortedNonEmptyNames collected)
      hsorted hnd2 0 n hn
    rw [nameLookup, this]
    norm_num

theorem c3_witness :
    (collectField Game.developers
        [{ appid := 1, developers := PyField.flist ["Valve", "Alpha"] }]
      = .ok ["Valve", "Alpha"]) ∧
    (["Alpha", "Valve"].Perm ["Valve", "Alpha"]) ∧
    (Except.ok (sortedNonEmptyNames ["Alpha", "Valve"])
        = extract_developers
            [{ appid := 1, developers := PyField.flist ["Valve", "Alpha"] }] ∧
      (sortedNonEmptyNames ["Valve", "Alpha"]).map
          (fun n => (nameLookup
            (sortedNonEmptyNames ["Valve", "Alpha"])).lookup n)
        = (sortedNonEmptyNames ["Valve", "Alpha"]).map
          (fun n => some (((sortedNonEmptyNames ["Valve", "Alpha"]).filter
              (fun m => codesLt (codes m) (codes n))).length + 1))) :=
  ⟨by decide, by decide,
    c3_surrogate_ids_deterministic
      [{ appid := 1, developers := PyField.flist ["Valve", "Alpha"] }]
      ["Valve", "Alpha"] ["Alpha", "Valve"] (by decide) (by decide)⟩

/-! ### Referential integrity of the association builders -/

theorem lookup_nameLookup_bounds {names : List String} {n : String} {k : Nat}
    (h : (nameLookup names).lookup n = some k) :
    1 ≤ k ∧ k ≤ names.length := by
  have := lookup_nameLookupAux_bounds names 0 n k h
  omega

theorem buildAssociationsAux_ok_mem (get : Game → PyField)
    (names : List String) :
    ∀ (games : List Game) (acc out : List AssocRow),
      buildAssociationsAux get (nameLookup names) games acc = .ok out →
      ∀ a ∈ out, a ∈ acc ∨
        (1 ≤ a.dimension_id ∧ a.dimension_id ≤ names.length ∧
          a.game_appid ∈ games.map Game.appid) := by
  intro games
  induction games with
  | nil =>
    intro acc out h a ha
    rw [buildAssociationsAux] at h
    cases h
    exact Or.inl ha
  | cons g rest ih =>
    intro acc out h a ha
    rw [buildAssociationsAux] at h
    cases hg : fieldGuard (get g) with
    | error e => simp [hg] at h
    | ok b =>
      simp only [hg] at h
      rcases ih _ out h a ha with h1 | h1
      · by_cases hb : b
        · rw [if_pos hb] at h1
          rcases List.mem_append.mp h1 with h2 | h2
          · exact Or.inl h2
          · obtain ⟨d, _, hd2⟩ := List.mem_filterMap.mp h2
            obtain ⟨i, hi, hia⟩ := Option.map_eq_some.mp hd2
            have hbound := lookup_nameLookup_bounds hi
            refine Or.inr ⟨?_, ?_, ?_⟩
            · rw [← hia]; exact hbound.1
            · rw [← hia]; exact hbound.2
            · rw [← hia]; simp
        · rw [if_neg hb] at h1
          exact Or.inl h1
      · exact Or.inr ⟨h1.1, h1.2.1, by simpa using Or.inr h1.2.2⟩

/-- C9.  Whenever the developer and genre association builders (fed the
dimensions the Builder extracted) run to completion — on a scalar cell
their guard raises and no association table exists — every produced row
carries a `dimension_id` between 1 and the dimension's row count and a
`game_appid` that is the appid of some row of the input Game table. -/
theorem c9_association_referential_integrity (games : List Game)
    (devNames genreNames : List String)
    (devAssocs genreAssocs : List AssocRow)
    (hdev : extract_developers games = .ok devNames)
    (hgen : extract_genres games = .ok genreNames)
    (hda : create_game_developer_associations games devNames = .ok devAssocs)
    (hga : create_game_genre_associations games genreNames
      = .ok genreAssocs) :
    (devAssocs.all (fun a => decide (1 ≤ a.dimension_id ∧
        a.dimension_id ≤ devNames.length ∧
        a.game_appid ∈ games.map Game.appid))) = true ∧
    (genreAssocs.all (fun a => decide (1 ≤ a.dimension_id ∧
        a.dimension_id ≤ genreNames.length ∧
        a.game_appid ∈ games.map Game.appid))) = true := by
  constructor
  · rw [List.all_eq_true]
    intro a ha
    rw [decide_eq_true_iff]
    rcases buildAssociationsAux_ok_mem Game.developers devNames games []
      devAssocs hda a ha with h | h
    · simp at h
    · exact h
  · rw [List.all_eq_true]
    intro a ha
    rw [decide_eq_true_iff]
    rcases buildAssociationsAux_ok_mem Game.genres genreNames games []
      genreAssocs hga a ha with h | h
    · simp at h
    · exact h

/-- The concrete Game table of the C9 witness (the spec's genre
scenario, with a developer column added). -/
def c9games : List Game :=
  [{ appid := 1, developers := PyField.flist ["Valve"],
     genres := PyField.flist ["Action", "RPG"] },
   { appid := 2, developers := PyField.flist ["Valve"],
     genres := PyField.flist ["Action"] }]

theorem c9_witness :
    extract_developers c9games = .ok ["Valve"] ∧
    extract_genres c9games = .ok ["Action", "RPG"] ∧
    create_game_developer_associations c9games ["Valve"]
      = .ok [⟨1, 1⟩, ⟨2, 1⟩] ∧
    create_game_genre_associations c9games ["Action", "RPG"]
      = .ok [⟨1, 1⟩, ⟨1, 2⟩, ⟨2, 1⟩] ∧
    ((([⟨1, 1⟩, ⟨2, 1⟩] : List AssocRow).all (fun a =>
        decide (1 ≤ a.dimension_id ∧
          a.dimension_id ≤ (["Valve"] : List String).length ∧
          a.game_appid ∈ c9games.map Game.appid))) = true ∧
      (([⟨1, 1⟩, ⟨1, 2⟩, ⟨2, 1⟩] : List AssocRow).all (fun a =>
        decide (1 ≤ a.dimension_id ∧
          a.dimension_id ≤ (["Action", "RPG"] : List String).length ∧
          a.game_appid ∈ c9games.map Game.appid))) = true) :=
  ⟨by decide, by decide, by decide, by decide,
    c9_association_referential_integrity c9games ["Valve"] ["Action", "RPG"]
      [⟨1, 1⟩, ⟨2, 1⟩] [⟨1, 1⟩, ⟨1, 2⟩, ⟨2, 1⟩]
      (by decide) (by decide) (by decide) (by decide)⟩

/-! ### Shape and uniqueness of the dimension tables -/

theorem keys_addTagVotes (acc : List (String × Int)) (t : String) (v : Int) :
    (addTagVotes acc t v).map Prod.fst
      = if t ∈ acc.map Prod.fst then acc.map Prod.fst
        else acc.map Prod.fst ++ [t] := by
  unfold addTagVotes
  by_cases ht : t ∈ acc.map Prod.fst
  · rw [if_pos ht, if_pos ht, List.map_map]
    apply List.map_congr_left
    intro p _
    show (if p.1 == t then (p.1, p.2 + v) else p).1 = p.1
    split
    · rfl
    · rfl
  · rw [if_neg ht, if_neg ht]
    simp

theorem nodup_keys_addTagVotes {acc : List (String × Int)} {t : String}
    {v : Int} (h : (acc.map Prod.fst).Nodup) :
    ((addTagVotes acc t v).map Prod.fst).Nodup := by
  rw [keys_addTagVotes]
  by_cases ht : t ∈ acc.map Prod.fst
  · rw [if_pos ht]; exact h
  · rw [if_neg ht]
    exact List.Nodup.append h (List.nodup_singleton t) (by simpa using ht)

theorem nodup_keys_foldl_addTagVotes (entries : List (String × Int)) :
    ∀ acc : List (String × Int), (acc.map Prod.fst).Nodup →
      ((entries.foldl (fun a p => addTagVotes a p.1 p.2) acc).map
        Prod.fst).Nodup := by
  induction entries with
  | nil => intro acc h; exact h
  | cons e rest ih => intro acc h; exact ih _ (nodup_keys_addTagVotes h)

theorem nodup_keys_collectTags (games : List Game) :
    ((collectTags games).map Prod.fst).Nodup := by
  unfold collectTags
  suffices h : ∀ acc : List (String × Int), (acc.map Prod.fst).Nodup →
      ((games.foldl
        (fun acc g =>
          if !g.tags.isEmpty then
            g.tags.foldl (fun a p => addTagVotes a p.1 p.2) acc
          else acc) acc).map Prod.fst).Nodup from h [] (by simp)
  induction games with
  | nil => intro acc h; exact h
  | cons g rest ih =>
    intro acc h
    rw [List.foldl_cons]
    by_cases hg : !g.tags.isEmpty
    · rw [if_pos hg]
      exact ih _ (nodup_keys_foldl_addTagVotes _ _ h)
    · rw [if_neg hg]
      exact ih _ h

/-- The concrete Game table of the C10 counterexample. -/
def c10games : List Game :=
  [{ appid := 1, developers := PyField.flist ["Valve", "Alpha"] }]

/-- C10, counterexample.  The dimension dataframe built by a (successful)
`extract_developers` run has a single `name` column: its rows carry no
`surrogate_id` field at all (the surrogate id exists only implicitly as
the 1-based row position used by the association lookups). -/
theorem c10_counterexample_no_surrogate_id_field :
    extract_developers c10games = .ok ["Alpha", "Valve"] ∧
    extract_developers_rows ["Alpha", "Valve"]
        = [[("name", PyVal.vstr "Alpha")], [("name", PyVal.vstr "Valve")]] ∧
    ("surrogate_id" ∈
        ((extract_developers_rows ["Alpha", "Valve"]).headD []).map
          Prod.fst) = False := by
  refine ⟨by decide, by decide, ?_⟩
  simp only [eq_iff_iff, iff_false]
  decide

/-- C10, amended.  Every dimension table the Builder successfully produces
— on a scalar cell the extraction guard raises instead, and no table
exists — consists of rows carrying a `name` string field (tag rows
additionally `total_votes`) but no explicit `surrogate_id` field; the
surrogate id is implicit as the 1-based row position; and names are
duplicate-free within each dimension table.  Tag extraction guards by
truthiness only and always succeeds. -/
theorem c10_amended_dimension_shape (games : List Game)
    (names : List String) (hdev : extract_developers games = .ok names) :
    ((extract_developers_rows names).all
        (fun r => r.map Prod.fst == ["name"])) = true ∧
    names.Nodup ∧
    ((extract_tags_rows games).all
        (fun r => r.map Prod.fst == ["name", "total_votes"])) = true ∧
    ((extract_tags games).map Prod.fst).Nodup := by
  obtain ⟨collected, hc, rfl⟩ := extract_developers_ok hdev
  refine ⟨?_, ?_, ?_, ?_⟩
  · rw [List.all_eq_true]
    intro r hr
    obtain ⟨n, _, rfl⟩ := List.mem_map.mp hr
    rfl
  · exact sortedNonEmptyNames_nodup
      (collectFieldAux_ok_nodup Game.developers games [] List.nodup_nil
        collected hc)
  · rw [List.all_eq_true]
    intro r hr
    obtain ⟨p, _, rfl⟩ := List.mem_map.mp hr
    rfl
  · have hperm : (extract_tags games).Perm (collectTags games) :=
      List.perm_insertionSort _ _
    exact ((hperm.map Prod.fst).nodup_iff).mpr (nodup_keys_collectTags games)

theorem c10_witness :
    extract_developers c10games = .ok ["Alpha", "Valve"] ∧
    (((extract_developers_rows ["Alpha", "Valve"]).all
        (fun r => r.map Prod.fst == ["name"])) = true ∧
      (["Alpha", "Valve"] : List String).Nodup ∧
      ((extract_tags_rows c10games).all
        (fun r => r.map Prod.fst == ["name", "total_votes"])) = true ∧
      ((extract_tags c10games).map Prod.fst).Nodup) :=
  ⟨by decide,
    c10_amended_dimension_shape c10games ["Alpha", "Valve"] (by decide)⟩

/-! ## Benchmark statistics (`TestRunner._calculate_statistics`) -/

/-- `statistics.mean` (only applied to non-empty lists in the source). -/
def listMean (l : List Rat) : Rat := l.sum / l.length

/-- `statistics.median`: sort, take the middle element, or the mean of the
two middle elements for even length. -/
def listMedian (l : List Rat) : Rat :=
  let s := l.insertionSort (· ≤ ·)
  if l.length % 2 = 1 then s.getD (l.length / 2) 0
  else (s.getD (l.length / 2 - 1) 0 + s.getD (l.length / 2) 0) / 2

/-- `min(l)` for non-empty `l`. -/
def listMin : List Rat → Rat
  | [] => 0
  | a :: t => t.foldl min a

/-- `max(l)` for non-empty `l`. -/
def listMax : List Rat → Rat
  | [] => 0
  | a :: t => t.foldl max a

/-- The per-backend statistics record of `_calculate_statistics`.  The
latency statistics are `Option`-valued: `none` models Python's `None`. -/
structure DbStats where
  mean : Option Rat
  median : Option Rat
  std : Option Rat
  min : Option Rat
  max : Option Rat
  successes : Nat
  failures : Nat
  success_rate : Rat
  avg_row_count : Rat
deriving DecidableEq, Repr

/-- `TestRunner._calculate_statistics`.  `statistics.stdev` computes a
square root, which has no exact rational value; it is abstracted as the
parameter `stdevF`, applied exactly where the source applies `stdev`
(`len(timings) > 1`, else `0`).  `run_results[db_name]` is modelled as a
lookup that skips runs missing the key; in the source every run carries
the same connection keys, where the two coincide. -/
def calculate_statistics (stdevF : List Rat → Rat)
    (all_run_results : List (List (String × QueryResult))) :
    List (String × DbStats) :=
  let db_names := (all_run_results.headD []).map Prod.fst
  db_names.map fun db =>
    let outs := all_run_results.filterMap (fun run => run.lookup db)
    let succ := outs.filter (fun q => q.error.isNone)
    let timings := succ.map (fun q => q.execution_time * 1000)
    let row_counts := succ.map (fun q => (q.row_count : Rat))
    let failures := (outs.filter (fun q => !q.error.isNone)).length
    (db,
      if !timings.isEmpty then
        { mean := some (listMean timings),
          median := some (listMedian timings),
          std := some (if 1 < timings.length then stdevF timings else 0),
          min := some (listMin timings),
          max := some (listMax timings),
          successes := succ.length,
          failures := failures,
          success_rate := (succ.length : Rat) / (all_run_results.length : Rat),
          avg_row_count :=
            if !row_counts.isEmpty then listMean row_counts else 0 }
      else
        { mean := none, median := none, std := none, min := none, max := none,
          successes := 0, failures := failures, success_rate := 0,
          avg_row_count := 0 })

theorem lookup_map_pair {α : Type _} (f : String → α) :
    ∀ (names : List String) (db : String), db ∈ names →
      (names.map (fun d => (d, f d))).lookup db = some (f db) := by
  intro names
  induction names with
  | nil => intro db h; simp at h
  | cons a t ih =>
    intro db hdb
    rw [List.map_cons, List.lookup_cons]
    by_cases h : db = a
    · subst h
      simp
    · have hb : (db == a) = false := by simpa using h
      simp only [hb]
      apply ih
      rcases List.mem_cons.mp hdb with h1 | h1
      · exact absurd h1 h
      · exact h1

theorem filterMap_lookup_all_failed (db : String) :
    ∀ runs : List (List (String × QueryResult)),
      (∀ run ∈ runs,
        (match run.lookup db with
         | some q => !q.error.isNone
         | none => false) = true) →
      (runs.filterMap (fun run => run.lookup db)).length = runs.length ∧
      ∀ q ∈ runs.filterMap (fun run => run.lookup db),
        q.error.isNone = false := by
  intro runs
  induction runs with
  | nil => intro _; exact ⟨rfl, by simp⟩
  | cons r rest ih =>
    intro h
    have hr := h r (List.mem_cons_self _ _)
    have hrest := ih (fun run hrun => h run (List.mem_cons_of_mem _ hrun))
    cases hlook : r.lookup db with
    | none => rw [hlook] at hr; simp at hr
    | some q =>
      rw [hlook] at hr
      have hq : q.error.isNone = false := by simpa using hr
      rw [List.filterMap_cons, hlook]
      refine ⟨by simpa using hrest.1, ?_⟩
      intro p hp
      rcases List.mem_cons.mp hp with h1 | h1
      · subst h1; exact hq
      · exact hrest.2 p h1

/-- C6.  For a backend key present in the run results for which every run
failed, `_calculate_statistics` reports `successes=0`, `failures=R`,
`success_rate=0`, and mean, median, standard deviation, min and max all as
`None` — never as the number `0`. -/
theorem c6_zero_success_statistics_are_none (stdevF : List Rat → Rat)
    (runs : List (List (String × QueryResult))) (db : String)
    (hdb : db ∈ (runs.headD []).map Prod.fst)
    (hfail : (runs.all (fun run =>
      match run.lookup db with
      | some q => !q.error.isNone
      | none => false)) = true) :
    (calculate_statistics stdevF runs).lookup db =
      some { mean := none, median := none, std := none, min := none,
             max := none, successes := 0, failures := runs.length,
             success_rate := 0, avg_row_count := 0 } := by
  have hfail2 := filterMap_lookup_all_failed db runs
    (List.all_eq_true.mp hfail)
  unfold calculate_statistics
  rw [lookup_map_pair _ _ _ hdb]
  have hsucc : (runs.filterMap (fun run => run.lookup db)).filter
      (fun q => q.error.isNone) = [] :=
    List.filter_eq_nil_iff.mpr (fun q hq => by simp [hfail2.2 q hq])
  have hfailures : (runs.filterMap (fun run => run.lookup db)).filter
      (fun q => !q.error.isNone) = runs.filterMap (fun run => run.lookup db) :=
    List.filter_eq_self.mpr (fun q hq => by simp [hfail2.2 q hq])
  simp only [hsucc, hfailures, hfail2.1, List.map_nil, List.isEmpty_nil,
    Bool.not_true, Bool.false_eq_true, if_false]

/-- The failed result used by the C6 witness. -/
def c6failedResult : QueryResult :=
  { rows := [], row_count := 0, execution_time := 0,
    database := "postgresql", test_name := "simple_select_expensive_games",
    error := some "connection refused" }

theorem c6_witness :
    ("postgresql" ∈
      (([[("postgresql", c6failedResult)], [("postgresql", c6failedResult)],
         [("postgresql", c6failedResult)], [("postgresql", c6failedResult)],
         [("postgresql", c6failedResult)]].headD
          []).map Prod.fst)) ∧
    (calculate_statistics (fun _ => 0)
        [[("postgresql", c6failedResult)], [("postgresql", c6failedResult)],
         [("postgresql", c6failedResult)], [("postgresql", c6failedResult)],
         [("postgresql", c6failedResult)]]).lookup "postgresql" =
      some { mean := none, median := none, std := none, min := none,
             max := none, successes := 0, failures := 5,
             success_rate := 0, avg_row_count := 0 } :=
  ⟨by decide,
    c6_zero_success_statistics_are_none (fun _ => 0)
      [[("postgresql", c6failedResult)], [("postgresql", c6failedResult)],
       [("postgresql", c6failedResult)], [("postgresql", c6failedResult)],
       [("postgresql", c6failedResult)]]
      "postgresql" (by decide) (by decide)⟩

/-! ## Test runner pipeline (`TestRunner` and `main`) -/

/-- One entry of the connections dict handed to a test's `run_all`: the
backend name, the outcome of the `run_*` callable, and the measured
wall-clock time. -/
abbrev ConnEntry := String × Except String FuncRet × Rat

/-- `BaseTest.run_all`: execute the test on each connected backend via
`execute_with_timing`.  The source walks the four known backend names in a
fixed order keeping those present in the connections dict; the connection
list is given here already in that order. -/
def test_run_all (test : String) (conns : List ConnEntry) :
    List (String × QueryResult) :=
  conns.map (fun c => (c.1, execute_with_timing c.1 test c.2.2 c.2.1))

/-- One registered catalog case: its name and, for every run number, the
per-backend outcomes of that run. -/
structure TestCase where
  name : String
  outcome : Nat → List ConnEntry

/-- The record `run_all_tests` appends to `self.test_results` (minus the
test object itself and the derived `summary`, which repeats `results`). -/
structure TestResultEntry where
  test_name : String
  results : List (String × QueryResult)
  statistics : Option (List (String × DbStats))
deriving DecidableEq, Repr

/-- `TestRunner.run_all_tests`: run every test `repeats` times, store the
last run's results (`all_run_results[-1]`; `argparse` guarantees
`repeats ≥ 1`) and statistics only when `repeats > 1`. -/
def run_all_tests (stdevF : List Rat → Rat) (repeats : Nat)
    (tests : List TestCase) : List TestResultEntry :=
  tests.map fun t =>
    let all_run_results :=
      (List.range repeats).map (fun i => test_run_all t.name (t.outcome i))
    { test_name := t.name,
      results := (all_run_results.getLast?).getD [],
      statistics :=
        if 1 < repeats then some (calculate_statistics stdevF all_run_results)
        else none }

/-- The four booleans of `_compare_data_samples`'s `comparison_details`
(the source key `match` is rendered `is_match`; the issue-message strings
carry no decision logic and are omitted). -/
structure CompDetails where
  is_match : Bool
  row_count_matches : Bool
  data_matches : Bool
  field_name_matches : Bool
deriving DecidableEq, Repr

/-- `isinstance(v, (int, float))` — the comparator's numeric-tolerance
guard (booleans included, `Decimal` not). -/
def isinstIntOrFloat : PyVal → Bool
  | .vint _ => true
  | .vbool _ => true
  | .vfloat _ => true
  | .vfnan _ => true
  | _ => false

/-- One field comparison of `_compare_data_samples`: numeric values with
absolute tolerance `0.01` — `abs(x - nan) > 0.01` is `False` for any NaN
operand, so NaN never registers as a mismatch there — everything else by
Python `==`. -/
def fieldMismatch (a b : PyVal) : Bool :=
  if isinstIntOrFloat a && isinstIntOrFloat b then
    if isNaN a || isNaN b then false
    else decide (1 / 100 < |pyFloat a - pyFloat b|)
  else !(pyEq a b)

/-- Count the mismatching common fields of one row pair (rows returned by
backends carry duplicate-free keys, so iterating the key list matches
iterating Python's key-set intersection). -/
def rowMismatchCount (ref_row test_row : Row) : Nat :=
  ((ref_row.map Prod.fst).filter
      (fun f => decide (f ∈ test_row.map Prod.fst))).countP
    (fun f => fieldMismatch ((ref_row.lookup f).getD .vnone)
      ((test_row.lookup f).getD .vnone))

/-- Total mismatches over the compared sample of row pairs. -/
def countMismatches (refs tests : List Row) : Nat :=
  ((refs.zip tests).map (fun p => rowMismatchCount p.1 p.2)).sum

/-- `TestRunner._compare_data_samples`, reduced to its verdict booleans:
per non-reference backend, short-circuit on a row-count mismatch,
otherwise compare the field-name sets of the first rows and the values of
the first `min(10, len(ref_rows))` rows with numeric tolerance. -/
def compare_data_samples (results : List (String × QueryResult))
    (dbs : List String) : CompDetails :=
  if dbs.length < 2 then
    { is_match := true, row_count_matches := true, data_matches := true,
      field_name_matches := true }
  else
    let ref_rows := ((results.lookup (dbs.headD "")).getD default).rows
    (dbs.drop 1).foldl
      (fun acc db =>
        let test_rows := ((results.lookup db).getD default).rows
        if ref_rows.length ≠ test_rows.length then
          { acc with is_match := false, row_count_matches := false }
        else
          let acc1 :=
            if !ref_rows.isEmpty && !test_rows.isEmpty then
              let ref_fields := (ref_rows.headD []).map Prod.fst
              let test_fields := (test_rows.headD []).map Prod.fst
              if ref_fields.all (fun f => decide (f ∈ test_fields)) &&
                  test_fields.all (fun f => decide (f ∈ ref_fields)) then acc
              else { acc with is_match := false, field_name_matches := false }
            else acc
          let sample := Nat.min 10 ref_rows.length
          if countMismatches (ref_rows.take sample) (test_rows.take sample)
              ≠ 0 then
            { acc1 with is_match := false, data_matches := false }
          else acc1)
      { is_match := true, row_count_matches := true, data_matches := true,
        field_name_matches := true }

/-- One entry of `self.comparison_results`: the insufficient-data branch
stores no `row_count_match` / `row_counts` / `data_comparison` keys, which
is modelled with `none` / `[]`. -/
structure CompEntry where
  test_name : String
  successful_databases : List String
  comparison_possible : Bool
  row_count_match : Option Bool
  row_counts : List (String × Nat)
  data_comparison : Option CompDetails
deriving DecidableEq, Repr

instance : Inhabited CompEntry := ⟨⟨"", [], false, none, [], none⟩⟩

/-- `TestRunner.compare_results`: for every stored test result, either an
insufficient-data entry (fewer than two successful backends) or a
comparison of row counts (`len(set(...)) == 1`) and data samples. -/
def compare_results (test_results : List TestResultEntry) : List CompEntry :=
  test_results.map fun tr =>
    let successful :=
      (tr.results.filter (fun p => p.2.error.isNone)).map Prod.fst
    if successful.length < 2 then
      { test_name := tr.test_name, successful_databases := successful,
        comparison_possible := false, row_count_match := none,
        row_counts := [], data_comparison := none }
    else
      let row_counts := successful.map
        (fun db => (db, ((tr.results.lookup db).getD default).row_count))
      { test_name := tr.test_name, successful_databases := successful,
        comparison_possible := true,
        row_count_match := some ((row_counts.map Prod.snd).dedup.length == 1),
        row_counts := row_counts,
        data_comparison := some (compare_data_samples tr.results successful) }

/-- The `main` entry point of `test_runner.py`, reduced to the state it
computes: it calls `run_all_tests()` and then — unconditionally, whatever
the configured repeat count — `compare_results()`.  (`generate_report` and
`print_summary` only serialize this state.) -/
def main_pipeline (stdevF : List Rat → Rat) (repeats : Nat)
    (tests : List TestCase) : List TestResultEntry × List CompEntry :=
  let trs := run_all_tests stdevF repeats tests
  (trs, compare_results trs)

/-- The importer entry point (`main.py`): initialize the requested
databases, and stop — returning before any import — when none succeeded;
otherwise import into each initialized database. -/
def importer_main (init_results : List (String × Bool)) :
    Option (List String) :=
  let initialized := (init_results.filter (fun p => p.2)).map Prod.fst
  if initialized.isEmpty then none
  else some initialized

/-- The catalog case of the C4 counterexample: two backends, both
succeeding with zero rows, identical across runs. -/
def c4test : TestCase :=
  { name := "simple_select_expensive_games",
    outcome := fun _ =>
      [("postgresql", .ok (.rawList []), 1), ("mysql", .ok (.rawList []), 2)] }

/-- C4, counterexample.  With a repeat count of 2 the pipeline still
performs the cross-backend comparison: `main` invokes `compare_results`
unconditionally, so the comparison record for the case is produced —
`comparison_possible = true` with a row-count verdict — contradicting the
claim that with `R > 1` no result comparison ever happens. -/
theorem c4_counterexample_comparison_runs_with_repeats_2 :
    (main_pipeline (fun _ => 0) 2 [c4test]).2.map
        (fun e => (e.test_name, e.comparison_possible, e.row_count_match,
          e.successful_databases))
      = [("simple_select_expensive_games", true, some true,
          ["postgresql", "mysql"])] := by
  decide

/-- C4, amended.  `main` runs the consistency comparison for every
configured repeat count (applied to the last run's stored results), one
comparison entry per catalog case; when `R > 1` per-backend statistics
are additionally computed, and only then. -/
theorem c4_amended_comparison_runs_for_every_repeat_count
    (stdevF : List Rat → Rat) (repeats : Nat) (tests : List TestCase) :
    (main_pipeline stdevF repeats tests).2
        = compare_results (run_all_tests stdevF repeats tests) ∧
    (main_pipeline stdevF repeats tests).2.length = tests.length ∧
    (main_pipeline stdevF repeats tests).1.map
        (fun tr => tr.statistics.isSome)
      = tests.map (fun _ => decide (1 < repeats)) := by
  refine ⟨rfl, ?_, ?_⟩
  · simp [main_pipeline, compare_results, run_all_tests]
  · simp only [main_pipeline, run_all_tests, List.map_map]
    apply List.map_congr_left
    intro t _
    by_cases hr : 1 < repeats <;> simp [hr]

/-- C5, amended.  The importer's `main` stops before any import when zero
databases initialize; the test runner has no such check — with zero
connected backends it still iterates every catalog case, each producing an
empty per-backend result set — and each backend's result depends only on
that backend's own outcome, so no error in one backend aborts evaluation
of the others. -/
theorem c5_amended_zero_backends_and_isolation (dbs : List String)
    (stdevF : List Rat → Rat) (repeats : Nat) (names : List String)
    (test : String) (pre post : List ConnEntry) (x : ConnEntry) :
    importer_main (dbs.map (fun d => (d, false))) = none ∧
    (run_all_tests stdevF repeats
        (names.map (fun nm => ⟨nm, fun _ => []⟩))).map
        (fun tr => (tr.test_name, tr.results))
      = names.map (fun nm => (nm, ([] : List (String × QueryResult)))) ∧
    test_run_all test (pre ++ x :: post)
      = test_run_all test pre ++ test_run_all test [x]
        ++ test_run_all test post := by
  refine ⟨?_, ?_, ?_⟩
  · simp [importer_main, List.filter_map, Function.comp_def]
  · simp only [run_all_tests, List.map_map]
    apply List.map_congr_left
    intro nm _
    simp [test_run_all]
    cases (List.range repeats).getLast? <;> rfl
  · simp [test_run_all]

/-- First catalog case of the C5 counterexample (no backends connect). -/
def c5testA : TestCase := ⟨"case_a", fun _ => []⟩

/-- Second catalog case of the C5 counterexample. -/
def c5testB : TestCase := ⟨"case_b", fun _ => []⟩

/-- C5, counterexample.  With zero successfully initialized backends the
test run does not stop: `run_all_tests` still processes both catalog
cases, storing one (empty) result entry per case, contradicting the claim
that the run stops before any case executes. -/
theorem c5_counterexample_run_proceeds_with_zero_backends :
    (run_all_tests (fun _ => 0) 1 [c5testA, c5testB]).map
        (fun tr => (tr.test_name, tr.results, tr.statistics))
      = [("case_a", ([] : List (String × QueryResult)), none),
         ("case_b", ([] : List (String × QueryResult)), none)] := by
  decide

/-! ## Price history simulation (`DataNormalizer.simulate_price_history`) -/

/-- The random draws one loop iteration may consume: `random.uniform(0.9,
1.1)`, `random.random()`, and the `random.choice` index (consumed only when
the discount branch is taken; supplying it unconditionally loses nothing
since the draws are independent). -/
structure Draw where
  u : Rat
  r : Rat
  c : Fin 7
deriving DecidableEq

/-- The fixed discount set of the simulation. -/
def discountChoices : List Int := [10, 15, 20, 25, 33, 50, 75]

/-- One simulated price record. `recorded_date` counts days relative to an
arbitrary epoch: `base_date - timedelta(days=month * 30)`. -/
structure PriceRecord where
  game_appid : Int
  price : Rat
  discount_percent : Int
  recorded_date : Int
deriving DecidableEq, Repr

/-- The body of the inner month loop
(`for month in range(months_back, -1, -1)`, so `month = months_back - j`
on the `j`-th iteration), threading the global draw counter. -/
def priceMonthStep (rand : Nat → Draw) (appid : Int) (p : Rat)
    (months_back : Nat) (base_date : Int)
    (st : Nat × List PriceRecord) (j : Nat) : Nat × List PriceRecord :=
  let month := months_back - j
  let d := rand st.1
  (st.1 + 1,
    st.2 ++ [{ game_appid := appid,
               price := pyRound2 (p * d.u),
               discount_percent :=
                 if d.r < 3 / 10 then discountChoices.get d.c else 0,
               recorded_date := base_date - (month : Int) * 30 }])

/-- The body of the outer game loop: skip games with `NaN` or non-positive
price.  (The source also reads `game['discount']` into a local variable it
never uses; that read is omitted.) -/
def priceGameStep (rand : Nat → Draw) (months_back : Nat) (base_date : Int)
    (st : Nat × List PriceRecord) (g : Game) : Nat × List PriceRecord :=
  match g.price with
  | some p =>
    if 0 < p then
      (List.range (months_back + 1)).foldl
        (priceMonthStep rand g.appid p months_back base_date) st
    else st
  | none => st

/-- `DataNormalizer.simulate_price_history`. -/
def simulate_price_history (rand : Nat → Draw) (games : List Game)
    (months_back : Nat) (base_date : Int) : List PriceRecord :=
  (games.foldl (priceGameStep rand months_back base_date) (0, [])).2

theorem roundHalfEven_bounds (q : Rat) :
    q - 1 / 2 ≤ (roundHalfEven q : Rat) ∧ (roundHalfEven q : Rat) ≤ q + 1 / 2 := by
  unfold roundHalfEven
  have hfl : ((⌊q⌋ : Int) : Rat) ≤ q := Int.floor_le q
  have hfu : q < ((⌊q⌋ : Int) : Rat) + 1 := Int.lt_floor_add_one q
  have hfract : Int.fract q = q - ((⌊q⌋ : Int) : Rat) := rfl
  split_ifs with h1 h2 h3 <;>
    rw [hfract] at * <;> constructor <;> push_cast <;> linarith

theorem pyRound2_scenario_bounds {u : Rat} (h1 : 9 / 10 ≤ u)
    (h2 : u ≤ 11 / 10) :
    1799 / 100 ≤ pyRound2 (1999 / 100 * u) ∧
      pyRound2 (1999 / 100 * u) ≤ 2199 / 100 := by
  unfold pyRound2
  have hx : 1999 / 100 * u * 100 = 1999 * u := by ring
  rw [hx]
  have hb := roundHalfEven_bounds (1999 * u)
  have hlow : (1798 : Rat) < (roundHalfEven (1999 * u) : Rat) := by
    nlinarith [hb.1]
  have hhigh : (roundHalfEven (1999 * u) : Rat) < 2200 := by
    nlinarith [hb.2]
  have hlow2 : (1799 : Int) ≤ roundHalfEven (1999 * u) := by
    have : (1798 : Int) < roundHalfEven (1999 * u) := by exact_mod_cast hlow
    omega
  have hhigh2 : roundHalfEven (1999 * u) ≤ (2199 : Int) := by
    have : roundHalfEven (1999 * u) < (2200 : Int) := by exact_mod_cast hhigh
    omega
  constructor
  · have : (1799 : Rat) ≤ (roundHalfEven (1999 * u) : Rat) := by
      exact_mod_cast hlow2
    linarith
  · have : (roundHalfEven (1999 * u) : Rat) ≤ (2199 : Rat) := by
      exact_mod_cast hhigh2
    linarith

theorem monthFold_length (rand : Nat → Draw) (appid : Int) (p : Rat)
    (mb : Nat) (bd : Int) :
    ∀ (l : List Nat) (st : Nat × List PriceRecord),
      ((l.foldl (priceMonthStep rand appid p mb bd) st).2).length
        = st.2.length + l.length := by
  intro l
  induction l with
  | nil => intro st; simp
  | cons j rest ih =>
    intro st
    rw [List.foldl_cons, ih]
    simp [priceMonthStep]
    omega

theorem monthFold_pres (rand : Nat → Draw) (appid : Int) (p : Rat)
    (mb : Nat) (bd : Int) (P : PriceRecord → Prop)
    (hP : ∀ (k j : Nat), P
      { game_appid := appid,
        price := pyRound2 (p * (rand k).u),
        discount_percent :=
          if (rand k).r < 3 / 10 then discountChoices.get (rand k).c else 0,
        recorded_date := bd - ((mb - j : Nat) : Int) * 30 }) :
    ∀ (l : List Nat) (st : Nat × List PriceRecord),
      (∀ rec ∈ st.2, P rec) →
      ∀ rec ∈ (l.foldl (priceMonthStep rand appid p mb bd) st).2, P rec := by
  intro l
  induction l with
  | nil => intro st hst rec hrec; exact hst rec hrec
  | cons j rest ih =>
    intro st hst rec hrec
    refine ih _ ?_ rec hrec
    intro r hr
    rcases List.mem_append.mp hr with h1 | h1
    · exact hst r h1
    · rw [List.mem_singleton.mp h1]
      exact hP st.1 j

/-- The scenario game of C8: priced `19.99`. -/
def c8game : Game := { appid := 1, price := some (1999 / 100) }

/-- C8.  For the game priced `19.99` with a 2-month look-back window, the
simulation emits exactly 3 records (months 2, 1, 0 — dates 60 and 30 days
back and today), and for every possible sequence of uniform draws in
`[0.9, 1.1]` each record carries a `discount_percent` in
`{0, 10, 15, 20, 25, 33, 50, 75}` and a price within `[17.99, 21.99]`. -/
theorem c8_price_history_scenario (rand : Nat → Draw)
    (h : ∀ i : Nat, 9 / 10 ≤ (rand i).u ∧ (rand i).u ≤ 11 / 10) :
    (simulate_price_history rand [c8game] 2 0).length = 3 ∧
    (simulate_price_history rand [c8game] 2 0).map
        (fun rec => rec.recorded_date) = [-60, -30, 0] ∧
    ((simulate_price_history rand [c8game] 2 0).all (fun rec =>
      decide (rec.discount_percent ∈ 0 :: discountChoices ∧
        1799 / 100 ≤ rec.price ∧ rec.price ≤ 2199 / 100))) = true := by
  have hopen : simulate_price_history rand [c8game] 2 0
      = ((List.range 3).foldl
          (priceMonthStep rand 1 (1999 / 100) 2 0) (0, [])).2 := by
    simp only [simulate_price_history, List.foldl_cons, List.foldl_nil,
      priceGameStep, c8game]
    rw [if_pos (by norm_num : (0 : Rat) < 1999 / 100)]
  refine ⟨?_, ?_, ?_⟩
  · rw [hopen, monthFold_length]
    rfl
  · rw [hopen]
    rfl
  · rw [hopen, List.all_eq_true]
    intro rec hrec
    rw [decide_eq_true_iff]
    refine monthFold_pres rand 1 (1999 / 100) 2 0
      (fun rec => rec.discount_percent ∈ 0 :: discountChoices ∧
        1799 / 100 ≤ rec.price ∧ rec.price ≤ 2199 / 100) ?_ (List.range 3)
      (0, []) (fun r hr => absurd hr (List.not_mem_nil r)) rec hrec
    intro k j
    refine ⟨?_, ?_, ?_⟩
    · by_cases hr : (rand k).r < 3 / 10
      · rw [if_pos hr]
        exact List.mem_cons_of_mem _ (List.get_mem _ _ _)
      · rw [if_neg hr]
        exact List.mem_cons_self _ _
    · exact (pyRound2_scenario_bounds (h k).1 (h k).2).1
    · exact (pyRound2_scenario_bounds (h k).1 (h k).2).2

/-- The constant draw stream of the C8 witness. -/
def c8rand : Nat → Draw := fun _ => ⟨1, 1 / 2, ⟨0, by norm_num⟩⟩

theorem c8_witness :
    (∀ i : Nat, 9 / 10 ≤ (c8rand i).u ∧ (c8rand i).u ≤ 11 / 10) ∧
    ((simulate_price_history c8rand [c8game] 2 0).length = 3 ∧
      (simulate_price_history c8rand [c8game] 2 0).map
          (fun rec => rec.recorded_date) = [-60, -30, 0] ∧
      ((simulate_price_history c8rand [c8game] 2 0).all (fun rec =>
        decide (rec.discount_percent ∈ 0 :: discountChoices ∧
          1799 / 100 ≤ rec.price ∧ rec.price ≤ 2199 / 100))) = true) :=
  ⟨fun i => ⟨by norm_num [c8rand], by norm_num [c8rand]⟩,
    c8_price_history_scenario c8rand
      (fun i => ⟨by norm_num [c8rand], by norm_num [c8rand]⟩)⟩

end Ztbd
